import Mathlib

/-!
Verification of the gitdav loose-object reader (`internal/git/git.go`).

The Go source is shallowly embedded over `List Nat` byte streams:

* bytes are `Nat` values (always `< 256` on real streams);
* the zlib-decompressed content of an object file is a `List Nat`;
* the object store (`.git/objects/<2-hex>/<38-hex>`) is a map from the
  40-hex object id to an optional file; path construction collapses to
  a direct keyed lookup, and `zlibValid` records whether
  `zlib.NewReader` would accept the raw file;
* `fmt.Fscanf` verbs are modelled byte-exactly for the formats the
  source uses (`"%s %d\u0000"` in `readObject` and `"%d %s"` in
  `parseTree`): a `%s` token is a maximal run of non-whitespace bytes,
  `%d` into `int64` accepts an optional sign and checks the 64-bit
  range, `%d` into `os.FileMode` (uint32) accepts digits only and
  checks the 32-bit range.  The verbs are modelled at the byte level
  (space and tab for the inter-field skip, the six `unicode.IsSpace`
  ASCII bytes as token stops), whereas `fmt` itself decodes runes:
  `%s` stops at every `unicode.IsSpace` rune and replaces invalid
  UTF-8 with U+FFFD.  On ASCII bytes the two coincide exactly, so
  theorems that scan symbolic name bytes restrict them to ASCII and
  the header theorems use ASCII tokens;
* `bufio.Scanner` driving a split function is modelled by a recursion
  that offers the whole remaining input with `atEOF = true`; for
  `scanTreeEntry` this yields exactly the token/error sequence of the
  streaming scanner, because the only `atEOF`-sensitive branch returns
  "request more data", which at end of input turns into the error.
  The scanner's 64 KiB maximum token size is not modelled;
* Go runtime aborts (slice-bounds panics) are an explicit `.panic`
  result, fallible code returns `.err`.
-/

namespace Gitdav

/-- Byte classifier for the ASCII bytes `unicode.IsSpace` accepts:
tab, newline, vertical tab, form feed, carriage return, space.
A `%s` verb stops its token at these bytes. -/
def isTokenStop (b : Nat) : Bool :=
  decide (b = 32 ∨ b = 9 ∨ b = 10 ∨ b = 11 ∨ b = 12 ∨ b = 13)

/-- Whitespace bytes skipped between fields in scanf mode (space and
tab; a newline is never silently skipped by `Fscanf` and leads to a
scan error, which the model reproduces by not skipping it). -/
def isFmtSpace (b : Nat) : Bool := decide (b = 32 ∨ b = 9)

/-- ASCII decimal digit. -/
def isDigitB (b : Nat) : Bool := decide (48 ≤ b ∧ b ≤ 57)

/-- `bytes.IndexByte`: index of the first occurrence of `b`, if any
(the Go function returns `-1` when absent; the caller adds 21, so the
absent case is kept symbolic here and resolved at the use site). -/
def indexByte (b : Nat) : List Nat → Option Nat
  | [] => none
  | c :: rest => if c = b then some 0 else (indexByte b rest).map (· + 1)

/-- Maximal run of decimal digits, folded into a value on top of the
accumulator `acc`; returns the value and the unconsumed rest. -/
def scanDigitsAux : Nat → List Nat → Nat × List Nat
  | acc, [] => (acc, [])
  | acc, b :: r =>
    if isDigitB b then scanDigitsAux (acc * 10 + (b - 48)) r else (acc, b :: r)

/-- Scan one unsigned decimal numeral: at least one digit is required,
as in `fmt`'s number scanner. -/
def scanDigits (l : List Nat) : Option (Nat × List Nat) :=
  match l with
  | [] => none
  | b :: r => if isDigitB b then some (scanDigitsAux (b - 48) r) else none

/-- The numeric value of a digit string (most significant first). -/
def digitsVal (ds : List Nat) : Nat :=
  ds.foldl (fun a b => a * 10 + (b - 48)) 0

/-- `%d` scanned into an `int64` (the header's length field): an
optional sign, one or more digits, and the 64-bit range check that
`fmt` performs. -/
def scanInt64 (l : List Nat) : Option (Int × List Nat) :=
  match l with
  | [] => none
  | b :: r =>
    if b = 45 then
      (scanDigits r).bind fun p =>
        if p.1 ≤ 2 ^ 63 then some (-(p.1 : Int), p.2) else none
    else if b = 43 then
      (scanDigits r).bind fun p =>
        if p.1 ≤ 2 ^ 63 - 1 then some ((p.1 : Int), p.2) else none
    else
      (scanDigits l).bind fun p =>
        if p.1 ≤ 2 ^ 63 - 1 then some ((p.1 : Int), p.2) else none

/-- `%d` scanned into `os.FileMode` (a `uint32`): digits only (no sign
for an unsigned target) and the 32-bit range check. -/
def scanUint32 (l : List Nat) : Option (Nat × List Nat) :=
  (scanDigits l).bind fun p => if p.1 < 2 ^ 32 then some p else none

/-- One lowercase hex digit, as `fmt`'s `%x` prints it. -/
def hexDigit (n : Nat) : Nat := if n < 10 then 48 + n else 87 + n

/-- `fmt.Sprintf("%x", string(sha))`: every byte becomes two lowercase
hex digits. -/
def toHex (l : List Nat) : List Nat :=
  l.flatMap fun b => [hexDigit (b / 16), hexDigit (b % 16)]

/-- Git object header, as returned by `readObject`'s Fscanf: a kind
token and a declared body length (an `int64` in the source). -/
structure Header where
  kind : List Nat
  length : Int
  deriving DecidableEq, Repr

/-- `fmt.Fscanf(fr, "%s %d\u0000", &kind, &length)` applied to the
decompressed stream: a `%s` token, whitespace, an `int64`, then the
literal NUL, which must match the next input byte exactly.  Returns
the header and the exact unconsumed rest of the stream (`fmt` reads
the underlying reader one rune at a time, so nothing beyond the
matched NUL is consumed or buffered). -/
def parseHeader (s : List Nat) : Option (Header × List Nat) :=
  let s1 := s.dropWhile isFmtSpace
  let kind := s1.takeWhile fun b => !(isTokenStop b)
  let s2 := (s1.dropWhile fun b => !(isTokenStop b)).dropWhile isFmtSpace
  if kind.isEmpty then none
  else
    match scanInt64 s2 with
    | none => none
    | some (v, s3) =>
      match s3 with
      | 0 :: rest => some (⟨kind, v⟩, rest)
      | _ => none

/-- `fmt.Fscanf(bytes.NewReader(buf), "%d %s", &mode, &name)` applied
to the mode-and-name part of a tree record: an unsigned mode and a
`%s` name token.  Any input left after the name is ignored, exactly as
`Fscanf` ignores unconsumed input.

This is a byte-level model of a rune-based scanner: Go's `fmt`
decodes UTF-8 runes, stops `%s` at every `unicode.IsSpace` rune
(e.g. U+00A0 or U+1680, whose encodings contain no ASCII whitespace
byte) and re-encodes invalid UTF-8 bytes as U+FFFD.  For ASCII input
every byte is its own rune, `unicode.IsSpace` coincides with the six
`isTokenStop` bytes, and re-encoding is the identity, so the model is
exact precisely on ASCII bytes.  Accordingly, every theorem that runs
this function over symbolic name bytes restricts them to ASCII
(`WFRecAscii`); concrete evaluations use ASCII inputs only. -/
def fscanfModeName (l : List Nat) : Option (Nat × List Nat) :=
  let l1 := l.dropWhile isFmtSpace
  match scanUint32 l1 with
  | none => none
  | some (mode, r1) =>
    let r2 := r1.dropWhile isFmtSpace
    let name := r2.takeWhile fun b => !(isTokenStop b)
    if name.isEmpty then none else some (mode, name)

/-- Error kinds surfaced by the reader (spec §7).  `objectNotFound` is
the `os.Open` not-exist failure, `corruptObject` the `zlib.NewReader`
failure, `malformedHeader` the header `Fscanf` failure, `wrongKind`
the "expected X, got Y" errors of the typed readers, `entryNotFound`
the `os.PathError` of the navigation methods, `malformedRecord` the
`scanTreeEntry` framing error (carrying the offending remainder, as
the Go error message does), and `entryParse` the wrapped tree-record
`Fscanf` failure ("could not read tree entry"). -/
inductive Err where
  | objectNotFound : Err
  | corruptObject : Err
  | malformedHeader : Err
  | wrongKind (expected got : List Nat) : Err
  | entryNotFound (name : List Nat) : Err
  | malformedRecord (data : List Nat) : Err
  | entryParse (pre : List Nat) : Err
  deriving DecidableEq, Repr

/-- Outcome of an operation: a value, a returned error, or a Go
runtime abort (slice-bounds panic). -/
inductive Res (α : Type) where
  | ok : α → Res α
  | err : Err → Res α
  | panic : Res α
  deriving DecidableEq, Repr

/-- One child of a tree: name and mode as parsed by `Fscanf`, and the
id stored as the lowercase-hex text of the 20 raw sha bytes (the Go
`Entry` also carries a parent-tree back-pointer, which the embedding
replaces by passing the repository explicitly, as spec §9 describes). -/
structure Entry where
  Name : List Nat
  Mode : Nat
  id : List Nat
  deriving DecidableEq, Repr

/-- A parsed tree object: its id and the ordered entry list. -/
structure Tree where
  id : List Nat
  Entries : List Entry
  deriving DecidableEq, Repr

/-- A parsed commit object: its id and the hex id of its root tree. -/
structure Commit where
  id : List Nat
  tree : List Nat
  deriving DecidableEq, Repr

/-- A blob handle: the declared size (trusted from the header) and the
remaining decompressed stream. -/
structure Blob where
  Size : Int
  content : List Nat
  deriving DecidableEq, Repr

/-- One loose-object file: whether `zlib.NewReader` accepts it, and
its decompressed content (header plus body). -/
structure ObjFile where
  zlibValid : Bool
  content : List Nat

/-- The repository: the loose-object store as a map from 40-hex object
id to the optional file at `.git/objects/<id[0:2]>/<id[2:]>`. -/
structure Repository where
  objects : List Nat → Option ObjFile

/-- What became of the `os.Open` file handle by the time `readObject`
returned: never opened, opened but neither closed nor returned
(leaked), or handed to the caller inside the returned `ReadCloser`. -/
inductive Handle where
  | notOpened : Handle
  | leakedOpen : Handle
  | handedToCaller : Handle
  deriving DecidableEq, Repr

/-- The kind literals `"blob"`, `"tree"`, `"commit"` as byte lists. -/
def blobW : List Nat := [98, 108, 111, 98]

/-- The literal `"tree"`. -/
def treeW : List Nat := [116, 114, 101, 101]

/-- The literal `"commit"`. -/
def commitW : List Nat := [99, 111, 109, 109, 105, 116]

/-- `readObject`: open the object file, wrap it in the zlib reader,
parse the header, and return the header together with the rest of the
decompressed stream; the second component tracks the file handle.  The
source closes nothing on its failure paths: after a `zlib.NewReader`
or header-`Fscanf` failure the opened `*os.File` is simply dropped. -/
def readObject (r : Repository) (sha : List Nat) :
    Res (Header × List Nat) × Handle :=
  match r.objects sha with
  | none => (.err .objectNotFound, .notOpened)
  | some f =>
    if f.zlibValid = false then (.err .corruptObject, .leakedOpen)
    else
      match parseHeader f.content with
      | none => (.err .malformedHeader, .leakedOpen)
      | some (h, body) => (.ok (h, body), .handedToCaller)

/-- The value component of `readObject`. -/
def readObjectRes (r : Repository) (sha : List Nat) : Res (Header × List Nat) :=
  (readObject r sha).1

/-- Result of one `scanTreeEntry` call: a token with its advance
count, a request for more input (also the normal end-of-input
termination, where Go returns `(0, nil, nil)`), or a scan error. -/
inductive ScanRes where
  | emit (advance : Nat) (token : List Nat) : ScanRes
  | needMore : ScanRes
  | scanErr (data : List Nat) : ScanRes
  deriving DecidableEq, Repr

/-- `recordLength := bytes.IndexByte(data, '\x00') + 21`; when the NUL
is absent `IndexByte` returns `-1`, so the record length degenerates
to `20`. -/
def recordLengthOf (data : List Nat) : Nat :=
  match indexByte 0 data with
  | some i => i + 21
  | none => 20

/-- The split function `scanTreeEntry`, byte for byte: finished at end
of empty input; a token of `recordLength` bytes when that many are
buffered; a malformed-record error at end of input otherwise; else a
request for more input. -/
def scanTreeEntry (data : List Nat) (atEOF : Bool) : ScanRes :=
  if atEOF && data.isEmpty then .needMore
  else if recordLengthOf data ≤ data.length then
    .emit (recordLengthOf data) (data.take (recordLengthOf data))
  else if atEOF then .scanErr data
  else .needMore

/-- The scan loop of `parseTree`, driving `scanTreeEntry` over the
remaining input (everything is buffered, so each step sees the full
remainder; see the module comment).  Each token is split as
`buf[:len(buf)-21]` and `buf[len(buf)-20:]`; a token shorter than 21
bytes makes the first slice expression panic in Go, which the model
records as `.panic`.  The `os.Stat` presence probe on the child object
(built from the raw sha bytes in the source) is performed via `stat`
and its result discarded — the `continue` in that branch is commented
out in the source. -/
def runTree (stat : List Nat → Bool) (acc : List Entry) (data : List Nat) :
    Res (List Entry) :=
  if data.isEmpty then .ok acc
  else if recordLengthOf data ≤ data.length then
    let tok := data.take (recordLengthOf data)
    if tok.length < 21 then .panic
    else if hq : (fscanfModeName (tok.take (tok.length - 21))).isSome then
      let mn := (fscanfModeName (tok.take (tok.length - 21))).get hq
      let sha := tok.drop (tok.length - 20)
      let _present := stat sha
      runTree stat (acc ++ [⟨mn.2, mn.1, toHex sha⟩])
        (data.drop (recordLengthOf data))
    else .err (.entryParse (tok.take (tok.length - 21)))
  else .err (.malformedRecord data)
termination_by data.length
decreasing_by
  have h20 : 20 ≤ recordLengthOf data := by
    unfold recordLengthOf
    cases indexByte 0 data
    · simp
    · simp
  simp only [List.length_drop]
  omega

/-- `parseTree`: run the record scan over the tree body, starting from
an empty entry list. -/
def parseTree (stat : List Nat → Bool) (body : List Nat) : Res (List Entry) :=
  runTree stat [] body

/-- The presence probe `parseTree` performs for each entry (its result
is unused; the source builds the probed path from the raw — not hex —
sha bytes, modelled as a plain store lookup on those bytes). -/
def statOf (r : Repository) (raw : List Nat) : Bool :=
  (r.objects raw).isSome

/-- `readBlob`: read the object, require kind `"blob"`, and return the
declared size with the remaining stream. -/
def readBlob (r : Repository) (sha : List Nat) : Res Blob :=
  match readObjectRes r sha with
  | .err e => .err e
  | .panic => .panic
  | .ok (h, body) =>
    if h.kind ≠ blobW then .err (.wrongKind blobW h.kind)
    else .ok ⟨h.length, body⟩

/-- `readTree`: read the object, require kind `"tree"`, and parse the
body into the entry list. -/
def readTree (r : Repository) (sha : List Nat) : Res Tree :=
  match readObjectRes r sha with
  | .err e => .err e
  | .panic => .panic
  | .ok (h, body) =>
    if h.kind ≠ treeW then .err (.wrongKind treeW h.kind)
    else
      match parseTree (statOf r) body with
      | .ok es => .ok ⟨sha, es⟩
      | .err e => .err e
      | .panic => .panic

/-- `dropCR` of `bufio.ScanLines`: strip one trailing carriage return. -/
def dropCR (l : List Nat) : List Nat :=
  match l.getLast? with
  | some 13 => l.dropLast
  | _ => l

/-- Worker for `bufio.ScanLines` over fully buffered input: split at
each newline; a final fragment without a newline is still a line; no
empty token is produced after a terminating newline. -/
def splitLinesAux (cur : List Nat) : List Nat → List (List Nat)
  | [] => [dropCR cur]
  | b :: rest =>
    if b = 10 then
      dropCR cur :: (if rest.isEmpty then [] else splitLinesAux [] rest)
    else splitLinesAux (cur ++ [b]) rest

/-- `bufio.ScanLines` over the whole body: empty input yields no
lines. -/
def splitLines (data : List Nat) : List (List Nat) :=
  match data with
  | [] => []
  | _ => splitLinesAux [] data

/-- `strings.TrimSpace` restricted to the ASCII whitespace bytes. -/
def trimSpace (l : List Nat) : List Nat :=
  ((l.dropWhile isTokenStop).reverse.dropWhile isTokenStop).reverse

/-- The body of `parseCommit`'s line loop: find the first space; a
line without one is skipped; a line whose field (the bytes before the
space) is `"tree"` stores `strings.TrimSpace(s[len("tree "):])`; every
other field falls through the `switch` and is discarded. -/
def stepCommit (tree : List Nat) (s : List Nat) : List Nat :=
  match indexByte 32 s with
  | none => tree
  | some i => if s.take i = treeW then trimSpace (s.drop 5) else tree

/-- The fold of `stepCommit` over a list of lines, from the zero value
of `Commit.tree` (the empty string). -/
def commitTreeOfLines (ls : List (List Nat)) : List Nat :=
  ls.foldl stepCommit []

/-- `parseCommit`: scan the body line by line and keep the last
`tree` field's value. -/
def parseCommit (body : List Nat) : List Nat :=
  commitTreeOfLines (splitLines body)

/-- `readCommit`: read the object, require kind `"commit"`, and parse
the body. -/
def readCommit (r : Repository) (sha : List Nat) : Res Commit :=
  match readObjectRes r sha with
  | .err e => .err e
  | .panic => .panic
  | .ok (h, body) =>
    if h.kind ≠ commitW then .err (.wrongKind commitW h.kind)
    else .ok ⟨sha, parseCommit body⟩

/-- `Commit.Tree`: resolve and parse the commit's root tree. -/
def Commit.TreeOf (r : Repository) (c : Commit) : Res Tree :=
  readTree r c.tree

/-- The linear search of `Tree.Blob`: first entry whose `Name` equals
the requested name wins; exhaustion is the `os.PathError` not-exist
failure. -/
def blobLoop (r : Repository) (name : List Nat) : List Entry → Res Blob
  | [] => .err (.entryNotFound name)
  | e :: es => if name = e.Name then readBlob r e.id else blobLoop r name es

/-- `Tree.Blob`: linear search of the entries, then `readBlob`. -/
def Tree.Blob (r : Repository) (t : Tree) (name : List Nat) : Res Blob :=
  blobLoop r name t.Entries

/-- The linear search of `Tree.Tree`, identical but resolving a
subtree. -/
def treeLoop (r : Repository) (name : List Nat) : List Entry → Res Tree
  | [] => .err (.entryNotFound name)
  | e :: es => if name = e.Name then readTree r e.id else treeLoop r name es

/-- `Tree.Tree`: linear search of the entries, then `readTree`. -/
def Tree.TreeOf (r : Repository) (t : Tree) (name : List Nat) : Res Tree :=
  treeLoop r name t.Entries

/-! ### Helper lemmas about the record scanner and the scan loop -/

theorem recordLengthOf_ge (data : List Nat) : 20 ≤ recordLengthOf data := by
  unfold recordLengthOf
  cases indexByte 0 data
  · simp
  · simp

theorem scanTreeEntry_emit_iff {data : List Nat} {n : Nat} {tok : List Nat} :
    scanTreeEntry data true = .emit n tok ↔
      recordLengthOf data ≤ data.length ∧ n = recordLengthOf data ∧
        tok = data.take (recordLengthOf data) := by
  unfold scanTreeEntry
  by_cases h1 : data.isEmpty
  · have : ¬ recordLengthOf data ≤ data.length := by
      have := recordLengthOf_ge data
      have : data.length = 0 := by simpa using List.isEmpty_iff_length_eq_zero.mp h1
      omega
    simp [h1, this]
  · by_cases h2 : recordLengthOf data ≤ data.length
    · simp [h1, h2, eq_comm, and_comm]
    · simp [h1, h2]

theorem scanTreeEntry_scanErr_iff {data : List Nat} :
    scanTreeEntry data true = .scanErr data ↔
      ¬ data.isEmpty ∧ ¬ recordLengthOf data ≤ data.length := by
  unfold scanTreeEntry
  by_cases h1 : data.isEmpty
  · simp [h1]
  · by_cases h2 : recordLengthOf data ≤ data.length
    · simp [h1, h2]
    · simp [h1, h2]

theorem runTree_nil (stat : List Nat → Bool) (acc : List Entry) :
    runTree stat acc [] = .ok acc := by
  rw [runTree]
  simp

theorem runTree_scanErr (stat : List Nat → Bool) (acc : List Entry)
    {data : List Nat} (h : scanTreeEntry data true = .scanErr data) :
    runTree stat acc data = .err (.malformedRecord data) := by
  obtain ⟨h1, h2⟩ := scanTreeEntry_scanErr_iff.mp h
  rw [runTree]
  simp [h1, h2]

theorem runTree_panic (stat : List Nat → Bool) (acc : List Entry)
    {data : List Nat} {n : Nat} {tok : List Nat}
    (h : scanTreeEntry data true = .emit n tok) (hlen : tok.length < 21) :
    runTree stat acc data = .panic := by
  obtain ⟨hle, hn, htok⟩ := scanTreeEntry_emit_iff.mp h
  have hne : ¬ data.isEmpty := by
    have := recordLengthOf_ge data
    intro hemp
    have : data.length = 0 := by simpa using List.isEmpty_iff_length_eq_zero.mp hemp
    omega
  rw [runTree]
  simp only [hne, Bool.false_eq_true, if_false, hle, if_true]
  rw [← htok, if_pos hlen]

theorem runTree_badEntry (stat : List Nat → Bool) (acc : List Entry)
    {data : List Nat} {n : Nat} {tok : List Nat}
    (h : scanTreeEntry data true = .emit n tok) (hlen : 21 ≤ tok.length)
    (hf : fscanfModeName (tok.take (tok.length - 21)) = none) :
    runTree stat acc data = .err (.entryParse (tok.take (tok.length - 21))) := by
  obtain ⟨hle, hn, htok⟩ := scanTreeEntry_emit_iff.mp h
  have hne : ¬ data.isEmpty := by
    have := recordLengthOf_ge data
    intro hemp
    have : data.length = 0 := by simpa using List.isEmpty_iff_length_eq_zero.mp hemp
    omega
  rw [runTree]
  simp only [hne, Bool.false_eq_true, if_false, hle, if_true]
  rw [← htok, if_neg (by omega)]
  simp [hf]

theorem runTree_emit (stat : List Nat → Bool) (acc : List Entry)
    {data : List Nat} {n mode : Nat} {tok name : List Nat}
    (h : scanTreeEntry data true = .emit n tok) (hlen : 21 ≤ tok.length)
    (hf : fscanfModeName (tok.take (tok.length - 21)) = some (mode, name)) :
    runTree stat acc data =
      runTree stat (acc ++ [⟨name, mode, toHex (tok.drop (tok.length - 20))⟩])
        (data.drop n) := by
  obtain ⟨hle, hn, htok⟩ := scanTreeEntry_emit_iff.mp h
  have hne : ¬ data.isEmpty := by
    have := recordLengthOf_ge data
    intro hemp
    have : data.length = 0 := by simpa using List.isEmpty_iff_length_eq_zero.mp hemp
    omega
  rw [runTree]
  simp only [hne, Bool.false_eq_true, if_false, hle, if_true]
  rw [← htok, if_neg (by omega), hn]
  simp [hf]

/-! ### Generic list scanning lemmas -/

theorem takeWhile_append_of_stop {p : Nat → Bool} {xs : List Nat} (y : Nat)
    (ys : List Nat) (hxs : ∀ b ∈ xs, p b = true) (hy : p y = false) :
    (xs ++ y :: ys).takeWhile p = xs := by
  induction xs with
  | nil => simp [List.takeWhile, hy]
  | cons a l ih =>
    have ha : p a = true := hxs a (by simp)
    simp only [List.cons_append, List.takeWhile, ha, List.append_eq]
    rw [ih fun b hb => hxs b (by simp [hb])]

theorem takeWhile_of_all {p : Nat → Bool} {xs : List Nat}
    (hxs : ∀ b ∈ xs, p b = true) : xs.takeWhile p = xs := by
  induction xs with
  | nil => simp
  | cons a l ih =>
    have ha : p a = true := hxs a (by simp)
    simp only [List.takeWhile, ha]
    rw [ih fun b hb => hxs b (by simp [hb])]

theorem dropWhile_append_of_all {p : Nat → Bool} {xs : List Nat}
    (ys : List Nat) (hxs : ∀ b ∈ xs, p b = true) :
    (xs ++ ys).dropWhile p = ys.dropWhile p := by
  induction xs with
  | nil => simp
  | cons a l ih =>
    have ha : p a = true := hxs a (by simp)
    simp only [List.cons_append, List.dropWhile, ha]
    exact ih fun b hb => hxs b (by simp [hb])

theorem dropWhile_cons_of_neg {p : Nat → Bool} {b : Nat} (l : List Nat)
    (hb : p b = false) : (b :: l).dropWhile p = b :: l := by
  simp [List.dropWhile, hb]

theorem indexByte_append_first {b : Nat} {xs : List Nat} (ys : List Nat)
    (hxs : ∀ x ∈ xs, x ≠ b) : indexByte b (xs ++ b :: ys) = some xs.length := by
  induction xs with
  | nil => simp [indexByte]
  | cons a l ih =>
    have ha : a ≠ b := hxs a (by simp)
    simp only [List.cons_append, indexByte, if_neg ha, List.append_eq]
    rw [ih fun x hx => hxs x (by simp [hx])]
    simp

theorem scanDigitsAux_append {ds : List Nat} (rest : List Nat) (acc : Nat)
    (hds : ∀ b ∈ ds, isDigitB b = true)
    (hrest : ∀ b, rest.head? = some b → isDigitB b = false) :
    scanDigitsAux acc (ds ++ rest) =
      (ds.foldl (fun a b => a * 10 + (b - 48)) acc, rest) := by
  induction ds generalizing acc with
  | nil =>
    cases rest with
    | nil => simp [scanDigitsAux]
    | cons b r =>
      have hb : isDigitB b = false := hrest b rfl
      simp [scanDigitsAux, hb]
  | cons d ds ih =>
    have hd : isDigitB d = true := hds d (by simp)
    simp only [List.cons_append, scanDigitsAux, hd, if_true, List.foldl_cons]
    exact ih _ fun b hb => hds b (by simp [hb])

theorem scanDigits_append {ds : List Nat} (rest : List Nat)
    (hne : ds ≠ []) (hds : ∀ b ∈ ds, isDigitB b = true)
    (hrest : ∀ b, rest.head? = some b → isDigitB b = false) :
    scanDigits (ds ++ rest) = some (digitsVal ds, rest) := by
  cases ds with
  | nil => exact absurd rfl hne
  | cons d ds =>
    have hd : isDigitB d = true := hds d (by simp)
    simp only [List.cons_append, scanDigits, hd, if_true]
    rw [scanDigitsAux_append rest _ (fun b hb => hds b (by simp [hb])) hrest]
    simp [digitsVal]

theorem isDigitB_not_stop {b : Nat} (h : isDigitB b = true) :
    isTokenStop b = false ∧ isFmtSpace b = false ∧ b ≠ 0 ∧ b ≠ 45 ∧ b ≠ 43 := by
  simp only [isDigitB, decide_eq_true_eq] at h
  simp only [isTokenStop, isFmtSpace, decide_eq_false_iff_not]
  omega

theorem not_stop_not_space {b : Nat} (h : isTokenStop b = false) :
    isFmtSpace b = false := by
  simp only [isTokenStop, decide_eq_false_iff_not] at h
  simp only [isFmtSpace, decide_eq_false_iff_not]
  omega

/-! ### Abstract tree records and the record round trip -/

/-- An abstract tree record before encoding: the mode digit string,
the raw name bytes, and the 20 raw sha bytes. -/
structure TreeRec where
  modeDigits : List Nat
  name : List Nat
  sha : List Nat
  deriving DecidableEq, Repr

/-- The mode-plus-space-plus-name prefix of an encoded record. -/
def recPre (r : TreeRec) : List Nat := r.modeDigits ++ 32 :: r.name

/-- The on-disk encoding of one record:
`"<mode> <name>\x00" ++ <20 raw sha bytes>`. -/
def encodeRec (r : TreeRec) : List Nat := recPre r ++ 0 :: r.sha

/-- Encoding of a record list, packed back to back. -/
def encodeRecs (rs : List TreeRec) : List Nat := rs.flatMap encodeRec

/-- A record the scanner and `Fscanf` accept: a nonempty digit string
whose value fits `uint32`, a nonempty name containing no whitespace
byte and no NUL, and exactly 20 sha bytes. -/
def WFRec (r : TreeRec) : Prop :=
  r.modeDigits ≠ [] ∧ (∀ b ∈ r.modeDigits, isDigitB b = true) ∧
    digitsVal r.modeDigits < 2 ^ 32 ∧ r.name ≠ [] ∧
    (∀ b ∈ r.name, isTokenStop b = false ∧ b ≠ 0) ∧ r.sha.length = 20

instance (r : TreeRec) : Decidable (WFRec r) := by
  unfold WFRec
  infer_instance

/-- The `Entry` a well-formed record parses to. -/
def recEntry (r : TreeRec) : Entry :=
  ⟨r.name, digitsVal r.modeDigits, toHex r.sha⟩

theorem recPre_no_zero {r : TreeRec} (h : WFRec r) : ∀ x ∈ recPre r, x ≠ 0 := by
  obtain ⟨-, hds, -, -, hname, -⟩ := h
  intro x hx
  simp only [recPre, List.mem_append, List.mem_cons] at hx
  rcases hx with hx | hx | hx
  · exact (isDigitB_not_stop (hds x hx)).2.2.1
  · omega
  · exact (hname x hx).2

theorem encodeRec_length {r : TreeRec} (h : WFRec r) :
    (encodeRec r).length = (recPre r).length + 21 := by
  obtain ⟨-, -, -, -, -, hsha⟩ := h
  simp [encodeRec, hsha]

theorem recordLengthOf_encodeRec {r : TreeRec} (h : WFRec r) (rest : List Nat) :
    recordLengthOf (encodeRec r ++ rest) = (recPre r).length + 21 := by
  have : encodeRec r ++ rest = recPre r ++ 0 :: (r.sha ++ rest) := by
    simp [encodeRec]
  rw [this]
  unfold recordLengthOf
  rw [indexByte_append_first _ (recPre_no_zero h)]

theorem fscanfModeName_recPre {r : TreeRec} (h : WFRec r) :
    fscanfModeName (recPre r) = some (digitsVal r.modeDigits, r.name) := by
  obtain ⟨hdne, hds, hlt, hnne, hname, -⟩ := h
  have hpre : recPre r = r.modeDigits ++ (32 :: r.name) := rfl
  obtain ⟨d, ds, hd⟩ : ∃ d ds, r.modeDigits = d :: ds := by
    cases hm : r.modeDigits with
    | nil => exact absurd hm hdne
    | cons d ds => exact ⟨d, ds, rfl⟩
  have hdd : isDigitB d = true := hds d (by rw [hd]; simp)
  unfold fscanfModeName
  have h1 : (recPre r).dropWhile isFmtSpace = recPre r := by
    rw [hpre, hd, List.cons_append]
    exact dropWhile_cons_of_neg _ (isDigitB_not_stop hdd).2.1
  have h2 : scanDigits (recPre r) = some (digitsVal r.modeDigits, 32 :: r.name) := by
    rw [hpre]
    exact scanDigits_append _ hdne hds (by intro b hb; cases hb; decide)
  have h3 : scanUint32 (recPre r) = some (digitsVal r.modeDigits, 32 :: r.name) := by
    unfold scanUint32
    rw [h2, Option.some_bind, if_pos hlt]
  rw [h1]
  simp only [h3]
  obtain ⟨n0, ns, hn⟩ : ∃ n0 ns, r.name = n0 :: ns := by
    cases hm : r.name with
    | nil => exact absurd hm hnne
    | cons n0 ns => exact ⟨n0, ns, rfl⟩
  have h4 : (32 :: r.name).dropWhile isFmtSpace = r.name := by
    have : isFmtSpace 32 = true := by decide
    simp only [List.dropWhile, this]
    rw [hn]
    exact dropWhile_cons_of_neg _ (not_stop_not_space (hname n0 (by rw [hn]; simp)).1)
  have h5 : r.name.takeWhile (fun b => !(isTokenStop b)) = r.name :=
    takeWhile_of_all fun b hb => by simp [(hname b hb).1]
  simp only [h4, h5]
  simp [hnne]

theorem scanTreeEntry_encodeRec {r : TreeRec} (h : WFRec r) (rest : List Nat) :
    scanTreeEntry (encodeRec r ++ rest) true =
      .emit (encodeRec r).length (encodeRec r) := by
  rw [scanTreeEntry_emit_iff]
  rw [recordLengthOf_encodeRec h rest, ← encodeRec_length h]
  refine ⟨by simp, rfl, ?_⟩
  rw [List.take_left]

theorem runTree_record (stat : List Nat → Bool) (acc : List Entry)
    {r : TreeRec} (h : WFRec r) (rest : List Nat) :
    runTree stat acc (encodeRec r ++ rest) =
      runTree stat (acc ++ [recEntry r]) rest := by
  have hlen := encodeRec_length h
  have hsha : r.sha.length = 20 := h.2.2.2.2.2
  have htk : (encodeRec r).take ((encodeRec r).length - 21) = recPre r := by
    rw [hlen, Nat.add_sub_cancel]
    rw [encodeRec, List.take_left]
  have hdr : (encodeRec r).drop ((encodeRec r).length - 20) = r.sha := by
    have h21 : (recPre r).length + 21 - 20 = (recPre r ++ [0]).length := by
      simp
    have henc : encodeRec r = (recPre r ++ [0]) ++ r.sha := by
      simp [encodeRec]
    rw [hlen, h21, henc, List.drop_left]
  have hstep := runTree_emit stat acc (scanTreeEntry_encodeRec h rest)
    (by rw [hlen]; omega)
    (by rw [htk]; exact fscanfModeName_recPre h)
  rw [hstep, hdr, List.drop_left]
  rfl

theorem runTree_encode (stat : List Nat → Bool) {rs : List TreeRec}
    (h : ∀ r ∈ rs, WFRec r) (acc : List Entry) (rest : List Nat) :
    runTree stat acc (encodeRecs rs ++ rest) =
      runTree stat (acc ++ rs.map recEntry) rest := by
  induction rs generalizing acc with
  | nil => simp [encodeRecs]
  | cons r rs ih =>
    have hr : WFRec r := h r (by simp)
    have hrs : ∀ x ∈ rs, WFRec x := fun x hx => h x (by simp [hx])
    simp only [encodeRecs, List.flatMap_cons, List.append_assoc] at ih ⊢
    rw [runTree_record stat acc hr, ih hrs]
    simp

-- Sanity checks of the scanning primitives (concrete evaluations).
example : parseHeader [98, 108, 111, 98, 32, 53, 0, 119] =
    some (⟨[98, 108, 111, 98], 5⟩, [119]) := by decide
example : fscanfModeName [49, 48, 48, 54, 52, 52, 32, 97, 46, 116, 120, 116] =
    some (100644, [97, 46, 116, 120, 116]) := by decide
example : fscanfModeName [49, 48, 48, 54, 52, 52, 32, 97, 32, 98] =
    some (100644, [97]) := by decide
example : parseHeader [98, 108, 111, 98, 32, 45, 53, 0] =
    some (⟨[98, 108, 111, 98], -5⟩, []) := by decide
example : parseHeader [98, 97, 110, 97, 110, 97, 32, 53, 0] =
    some (⟨[98, 97, 110, 97, 110, 97], 5⟩, []) := by decide
example : toHex [171, 0, 15] = [97, 98, 48, 48, 48, 102] := by decide

/-! ### Claim theorems -/

/-- The record `"100644 a b.txt\x00"` followed by 20 raw sha bytes:
its name contains a space, so `%s` stops early. -/
def c1BadBody : List Nat :=
  [49, 48, 48, 54, 52, 52, 32, 97, 32, 98, 46, 116, 120, 116, 0] ++
    List.replicate 20 171

/-- C1 counterexample: the claim says the Entry's Name is the entire
remainder between the space and the NUL.  For the record
`"100644 a b.txt\x00<sha>"` that remainder is `"a b.txt"`, but
`Fscanf`'s `%s` verb stops at the next whitespace byte, so parsing
succeeds with Name `"a"` — not the full remainder. -/
theorem c1_counterexample :
    parseTree (fun _ => true) c1BadBody =
      .ok [⟨[97], 100644, toHex (List.replicate 20 171)⟩] ∧
    ([97] : List Nat) ≠ [97, 32, 98, 46, 116, 120, 116] := by
  refine ⟨?_, by decide⟩
  show runTree _ [] c1BadBody = _
  rw [runTree_emit _ []
    (show scanTreeEntry c1BadBody true = .emit 35 c1BadBody by decide)
    (by decide)
    (show fscanfModeName (c1BadBody.take (c1BadBody.length - 21)) =
      some (100644, [97]) by decide)]
  rw [show c1BadBody.drop 35 = ([] : List Nat) by decide, runTree_nil]
  decide

/-- A record on the domain where the byte-level `%s` model is exact:
well-formed with a name of ASCII bytes (every byte `< 128`; no
whitespace byte, hence no `unicode.IsSpace` rune and no invalid UTF-8
to substitute) and 20 sha bytes that are bytes (`< 256`), so that
`toHex` is exactly `%x`. -/
def WFRecAscii (r : TreeRec) : Prop :=
  WFRec r ∧ (∀ b ∈ r.name, b < 128) ∧ (∀ b ∈ r.sha, b < 256)

instance (r : TreeRec) : Decidable (WFRecAscii r) := by
  unfold WFRecAscii
  infer_instance

/-- C1 (amended): for every tree body made of records whose names
consist of non-whitespace, non-NUL ASCII bytes, parsing splits each
record at the first NUL into a mode-space-name prefix and a trailing
20-raw-byte id; the Entry's Mode is the decimal integer before the
first space, the Entry's Name is the `%s` token after it — on this
ASCII domain exactly the entire remainder between the space and the
NUL — and the Entry's stored id is the lowercase hex text of the 20
raw id bytes; the entries appear in on-disk record order.  (Outside
this domain `%s` is rune-based: it truncates the name at any
`unicode.IsSpace` rune and substitutes U+FFFD for invalid UTF-8
bytes, so raw non-ASCII name bytes are not passed through.) -/
theorem c1_tree_record_parsing (stat : List Nat → Bool) (rs : List TreeRec)
    (h : ∀ r ∈ rs, WFRecAscii r) :
    parseTree stat (encodeRecs rs) = .ok (rs.map recEntry) := by
  have hwf : ∀ r ∈ rs, WFRec r := fun r hr => (h r hr).1
  unfold parseTree
  have h1 := runTree_encode stat hwf [] []
  rw [List.append_nil] at h1
  rw [h1, runTree_nil]
  simp

/-- The record `("100644", "a.txt", <20 bytes 0..19>)`. -/
def recA : TreeRec :=
  ⟨[49, 48, 48, 54, 52, 52], [97, 46, 116, 120, 116], List.range 20⟩

/-- The record `("40000", "sub", <20 bytes 0xff>)`. -/
def recSub : TreeRec :=
  ⟨[52, 48, 48, 48, 48], [115, 117, 98], List.replicate 20 255⟩

/-- C1 witness: the spec's round-trip example — a body with records
`("100644", "a.txt", id1)` and `("40000", "sub", id2)` parses to
exactly those two entries, in order, with hex-encoded ids. -/
theorem c1_witness :
    parseTree (fun _ => true) (encodeRecs [recA, recSub]) =
      .ok [⟨[97, 46, 116, 120, 116], 100644, toHex (List.range 20)⟩,
        ⟨[115, 117, 98], 40000, toHex (List.replicate 20 255)⟩] := by
  rw [c1_tree_record_parsing (fun _ => true) [recA, recSub] (by decide)]
  decide

/-- C8: a tree body of zero bytes parses to zero entries, and the
record scan treats end of input with zero remaining bytes as normal
termination (the `(0, nil, nil)` return, not an error). -/
theorem c8_empty_tree_body (stat : List Nat → Bool) :
    parseTree stat [] = .ok [] ∧ scanTreeEntry [] true = .needMore := by
  exact ⟨runTree_nil stat [], by decide⟩

/-- C8 witness at a concrete scan predicate. -/
theorem c8_witness : parseTree (fun _ => true) [] = .ok [] :=
  (c8_empty_tree_body (fun _ => true)).1

/-- C10: evaluation at the failing input.  Twenty bytes `'a'` with no
NUL: `bytes.IndexByte` returns `-1`, so `scanTreeEntry` emits a
20-byte token (shorter than the 21 bytes the claim asserts), and
`parseTree`'s slice expression `buf[:len(buf)-21]` is out of bounds —
the parse aborts with a runtime panic instead of returning a Tree or
an error. -/
theorem c10_short_token_panic :
    scanTreeEntry (List.replicate 20 97) false =
        .emit 20 (List.replicate 20 97) ∧
      parseTree (fun _ => true) (List.replicate 20 97) = .panic := by
  refine ⟨by decide, ?_⟩
  show runTree _ [] _ = _
  exact runTree_panic _ []
    (show scanTreeEntry (List.replicate 20 97) true =
      .emit 20 (List.replicate 20 97) by decide) (by decide)

/-! ### Header parser lemmas (C3, C4) -/

theorem scanDigitsAux_rest_mem {l : List Nat} {acc b : Nat}
    (h : b ∈ (scanDigitsAux acc l).2) : b ∈ l := by
  induction l generalizing acc with
  | nil => simp [scanDigitsAux] at h
  | cons c r ih =>
    by_cases hc : isDigitB c
    · simp only [scanDigitsAux, hc, if_true] at h
      exact List.mem_cons_of_mem c (ih h)
    · simp only [scanDigitsAux, hc, if_false] at h
      exact h

theorem scanDigits_rest_mem {l rest : List Nat} {v b : Nat}
    (h : scanDigits l = some (v, rest)) (hb : b ∈ rest) : b ∈ l := by
  cases l with
  | nil => simp [scanDigits] at h
  | cons c r =>
    by_cases hc : isDigitB c
    · simp only [scanDigits, hc, if_true, Option.some_inj] at h
      have : rest = (scanDigitsAux (c - 48) r).2 := by
        rw [h]
      exact List.mem_cons_of_mem c (scanDigitsAux_rest_mem (this ▸ hb))
    · simp [scanDigits, hc] at h

theorem scanInt64_rest_mem {l rest : List Nat} {v : Int} {b : Nat}
    (h : scanInt64 l = some (v, rest)) (hb : b ∈ rest) : b ∈ l := by
  cases l with
  | nil => simp [scanInt64] at h
  | cons c r =>
    by_cases h45 : c = 45
    · simp only [scanInt64, h45, if_true] at h
      cases hsd : scanDigits r with
      | none => rw [hsd] at h; simp at h
      | some p =>
        rw [hsd] at h
        simp only [Option.some_bind] at h
        by_cases hle : p.1 ≤ 2 ^ 63
        · rw [if_pos hle] at h
          have : rest = p.2 := by
            cases h
            rfl
          subst h45
          exact List.mem_cons_of_mem 45
            (scanDigits_rest_mem (by rw [hsd]) (this ▸ hb))
        · rw [if_neg hle] at h
          exact absurd h (by simp)
    · by_cases h43 : c = 43
      · simp only [scanInt64, h45, h43, if_true, if_false] at h
        cases hsd : scanDigits r with
        | none => rw [hsd] at h; simp at h
        | some p =>
          rw [hsd] at h
          simp only [Option.some_bind] at h
          by_cases hle : p.1 ≤ 2 ^ 63 - 1
          · rw [if_pos hle] at h
            have : rest = p.2 := by
              cases h
              rfl
            subst h43
            exact List.mem_cons_of_mem 43
              (scanDigits_rest_mem (by rw [hsd]) (this ▸ hb))
          · rw [if_neg hle] at h
            exact absurd h (by simp)
      · simp only [scanInt64, h45, h43, if_false] at h
        cases hsd : scanDigits (c :: r) with
        | none => rw [hsd] at h; simp at h
        | some p =>
          rw [hsd] at h
          simp only [Option.some_bind] at h
          by_cases hle : p.1 ≤ 2 ^ 63 - 1
          · rw [if_pos hle] at h
            have : rest = p.2 := by
              cases h
              rfl
            exact scanDigits_rest_mem hsd (this ▸ hb)
          · rw [if_neg hle] at h
            exact absurd h (by simp)

/-- C3: for every correctly formed loose-object stream — a
non-whitespace kind token, one space, a digit string denoting `n`
within the `int64` range, the NUL, then a body of exactly `n` bytes —
the header parser returns the declared `(kind, n)` and leaves the
stream positioned exactly at the first body byte: the returned rest is
the body itself, so reading exactly `n` further bytes reaches the end
of the decompressed stream. -/
theorem c3_header_exact (kind digs body : List Nat) (n : Nat)
    (hk : kind ≠ []) (hks : ∀ b ∈ kind, isTokenStop b = false)
    (hd : digs ≠ []) (hds : ∀ b ∈ digs, isDigitB b = true)
    (hval : digitsVal digs = n) (hn : n < 2 ^ 63) (hbody : body.length = n) :
    parseHeader (kind ++ 32 :: digs ++ 0 :: body) =
        some (⟨kind, (n : Int)⟩, body) ∧
      body.length = n := by
  refine ⟨?_, hbody⟩
  have hshape : kind ++ 32 :: digs ++ 0 :: body =
      kind ++ 32 :: (digs ++ 0 :: body) := by
    simp
  rw [hshape]
  obtain ⟨k0, kr, hkd⟩ : ∃ a l, kind = a :: l := by
    cases kind with
    | nil => exact absurd rfl hk
    | cons a l => exact ⟨a, l, rfl⟩
  obtain ⟨d0, dr, hdd⟩ : ∃ a l, digs = a :: l := by
    cases digs with
    | nil => exact absurd rfl hd
    | cons a l => exact ⟨a, l, rfl⟩
  have hk0 : isTokenStop k0 = false := hks k0 (by rw [hkd]; simp)
  have hd0 : isDigitB d0 = true := hds d0 (by rw [hdd]; simp)
  have hpk : ∀ b ∈ kind, (fun b => !(isTokenStop b)) b = true := by
    intro b hb
    simp [hks b hb]
  have e1 : (kind ++ 32 :: (digs ++ 0 :: body)).dropWhile isFmtSpace =
      kind ++ 32 :: (digs ++ 0 :: body) := by
    rw [hkd, List.cons_append]
    exact dropWhile_cons_of_neg _ (not_stop_not_space hk0)
  have e2 : (kind ++ 32 :: (digs ++ 0 :: body)).takeWhile
      (fun b => !(isTokenStop b)) = kind :=
    takeWhile_append_of_stop 32 (digs ++ 0 :: body) hpk (by decide)
  have e3 : ((kind ++ 32 :: (digs ++ 0 :: body)).dropWhile
      (fun b => !(isTokenStop b))).dropWhile isFmtSpace = digs ++ 0 :: body := by
    rw [dropWhile_append_of_all (32 :: (digs ++ 0 :: body)) hpk,
      dropWhile_cons_of_neg (digs ++ 0 :: body) (by decide)]
    have h32 : (32 :: (digs ++ 0 :: body)).dropWhile isFmtSpace =
        (digs ++ 0 :: body).dropWhile isFmtSpace := by
      simp [List.dropWhile, isFmtSpace]
    rw [h32, hdd, List.cons_append]
    exact dropWhile_cons_of_neg _ (isDigitB_not_stop hd0).2.1
  have e4 : scanInt64 (digs ++ 0 :: body) = some ((n : Int), 0 :: body) := by
    have h45 : d0 ≠ 45 := (isDigitB_not_stop hd0).2.2.2.1
    have h43 : d0 ≠ 43 := (isDigitB_not_stop hd0).2.2.2.2
    rw [hdd, List.cons_append]
    simp only [scanInt64, h45, h43, if_false]
    rw [← List.cons_append, ← hdd,
      scanDigits_append _ hd hds (by intro b hb; cases hb; decide)]
    simp only [Option.some_bind]
    rw [if_pos (by omega), hval]
  unfold parseHeader
  simp only [e1, e2, e3, e4]
  simp [hkd]

/-- C3 witness: the stream `"blob 5\x00world"` parses to the header
`(blob, 5)` with the rest `"world"`, whose length is 5. -/
theorem c3_witness :
    parseHeader (blobW ++ 32 :: [53] ++ 0 :: [119, 111, 114, 108, 100]) =
      some (⟨blobW, (5 : Int)⟩, [119, 111, 114, 108, 100]) :=
  (c3_header_exact blobW [53] [119, 111, 114, 108, 100] 5 (by decide)
    (by decide) (by decide) (by decide) (by decide) (by decide) rfl).1

/-- The kind token `"banana"`. -/
def bananaW : List Nat := [98, 97, 110, 97, 110, 97]

/-- C4 counterexample: the claim says a kind outside
{blob, tree, commit} makes the header parser fail with a
malformed-header error.  It does not: the stream `"banana 5\x00"`
parses successfully — `%s` accepts any non-whitespace token — so the
unrecognized kind is not rejected at the header-parsing boundary. -/
theorem c4_counterexample :
    parseHeader (bananaW ++ [32, 53, 0]) = some (⟨bananaW, 5⟩, []) ∧
      bananaW ≠ blobW ∧ bananaW ≠ treeW ∧ bananaW ≠ commitW := by decide

/-- C4 (amended): a header whose text lacks the two-field shape fails
with a malformed-header error at `readObject` — in particular a stream
with no NUL byte at all, and a stream whose length field does not scan
as a (possibly signed) decimal integer; but a kind outside
{blob, tree, commit} is accepted by the header parser and rejected
only later, by the typed readers, as a wrong-object-kind error. -/
theorem c4_header_errors (s kind r2 : List Nat) (rp : Repository)
    (sha : List Nat) (h : Header) (body : List Nat) :
    (0 ∉ s → parseHeader s = none) ∧
      (kind ≠ [] → (∀ b ∈ kind, isTokenStop b = false) →
        scanInt64 (r2.dropWhile isFmtSpace) = none →
        parseHeader (kind ++ 32 :: r2) = none) ∧
      (readObjectRes rp sha = .ok (h, body) →
        (h.kind ≠ blobW → readBlob rp sha = .err (.wrongKind blobW h.kind)) ∧
          (h.kind ≠ treeW → readTree rp sha = .err (.wrongKind treeW h.kind)) ∧
          (h.kind ≠ commitW →
            readCommit rp sha = .err (.wrongKind commitW h.kind))) := by
  refine ⟨?_, ?_, ?_⟩
  · intro h0
    unfold parseHeader
    set s1 := s.dropWhile isFmtSpace with hs1
    set ktok := s1.takeWhile (fun b => !(isTokenStop b)) with hktok
    set s2 := (s1.dropWhile fun b => !(isTokenStop b)).dropWhile isFmtSpace
      with hs2
    by_cases hk : ktok.isEmpty
    · simp [hk]
    · have hmem : ∀ b ∈ s2, b ∈ s := by
        intro b hb
        rw [hs2] at hb
        exact (List.dropWhile_sublist _).subset
          ((List.dropWhile_sublist _).subset
            ((List.dropWhile_sublist _).subset hb))
      cases hsi : scanInt64 s2 with
      | none => simp [hk, hsi]
      | some p =>
        obtain ⟨v, s3⟩ := p
        have hs3 : ∀ b ∈ s3, b ∈ s := fun b hb =>
          hmem b (scanInt64_rest_mem hsi hb)
        cases s3 with
        | nil => simp [hk, hsi]
        | cons b rest =>
          cases b with
          | zero => exact absurd (hs3 0 (by simp)) h0
          | succ m => simp [hk, hsi]
  · intro hkne hks hsi
    unfold parseHeader
    obtain ⟨k0, kr, hkd⟩ : ∃ a l, kind = a :: l := by
      cases kind with
      | nil => exact absurd rfl hkne
      | cons a l => exact ⟨a, l, rfl⟩
    have hk0 : isTokenStop k0 = false := hks k0 (by rw [hkd]; simp)
    have hpk : ∀ b ∈ kind, (fun b => !(isTokenStop b)) b = true := by
      intro b hb
      simp [hks b hb]
    have e1 : (kind ++ 32 :: r2).dropWhile isFmtSpace = kind ++ 32 :: r2 := by
      rw [hkd, List.cons_append]
      exact dropWhile_cons_of_neg _ (not_stop_not_space hk0)
    have e3 : ((kind ++ 32 :: r2).dropWhile
        (fun b => !(isTokenStop b))).dropWhile isFmtSpace =
        r2.dropWhile isFmtSpace := by
      rw [dropWhile_append_of_all (32 :: r2) hpk,
        dropWhile_cons_of_neg r2 (by decide)]
      simp [List.dropWhile, isFmtSpace]
    simp only [e1, e3, hsi]
    simp
  · intro hro
    refine ⟨?_, ?_, ?_⟩
    · intro hkind
      unfold readBlob
      rw [hro]
      simp [hkind]
    · intro hkind
      unfold readTree
      rw [hro]
      simp [hkind]
    · intro hkind
      unfold readCommit
      rw [hro]
      simp [hkind]

/-- A store holding one loose object whose decompressed stream is
`"banana 5\x00world"` under a 40-hex id. -/
def bananaRepo : Repository :=
  ⟨fun id => if id = List.replicate 40 97 then
    some ⟨true, bananaW ++ [32, 53, 0, 119, 111, 114, 108, 100]⟩ else none⟩

/-- C4 witness: a NUL-free stream and a `"blob x"` stream are rejected
by the header parser, while the `"banana"`-kind object is readable at
the header level and each typed reader rejects it with a
wrong-object-kind error. -/
theorem c4_witness :
    parseHeader [119, 111, 114, 108, 100] = none ∧
      parseHeader (blobW ++ 32 :: [120]) = none ∧
      readBlob bananaRepo (List.replicate 40 97) =
        .err (.wrongKind blobW bananaW) ∧
      readTree bananaRepo (List.replicate 40 97) =
        .err (.wrongKind treeW bananaW) ∧
      readCommit bananaRepo (List.replicate 40 97) =
        .err (.wrongKind commitW bananaW) := by
  have hro : readObjectRes bananaRepo (List.replicate 40 97) =
      .ok (⟨bananaW, 5⟩, [119, 111, 114, 108, 100]) := by decide
  have h1 := (c4_header_errors [119, 111, 114, 108, 100] [] [] bananaRepo
    (List.replicate 40 97) ⟨bananaW, 5⟩ [119, 111, 114, 108, 100]).1
    (by decide)
  have h2 := (c4_header_errors [] blobW [120] bananaRepo
    (List.replicate 40 97) ⟨bananaW, 5⟩ [119, 111, 114, 108, 100]).2.1
    (by decide) (by decide) (by decide)
  have h3 := (c4_header_errors [] [] [] bananaRepo
    (List.replicate 40 97) ⟨bananaW, 5⟩ [119, 111, 114, 108, 100]).2.2 hro
  exact ⟨h1, h2, h3.1 (by decide), h3.2.1 (by decide), h3.2.2 (by decide)⟩

/-! ### Navigation lemmas (C5) -/

theorem blobLoop_eq_find (r : Repository) (name : List Nat) (es : List Entry) :
    blobLoop r name es =
      (match es.find? (fun e => name == e.Name) with
       | none => .err (.entryNotFound name)
       | some e => readBlob r e.id) := by
  induction es with
  | nil => rfl
  | cons e es ih =>
    by_cases he : name = e.Name
    · rw [List.find?_cons_of_pos _ (by simp [he])]
      simp [blobLoop, he]
    · rw [List.find?_cons_of_neg _ (by simp [he])]
      simp only [blobLoop, if_neg he]
      exact ih

theorem treeLoop_eq_find (r : Repository) (name : List Nat) (es : List Entry) :
    treeLoop r name es =
      (match es.find? (fun e => name == e.Name) with
       | none => .err (.entryNotFound name)
       | some e => readTree r e.id) := by
  induction es with
  | nil => rfl
  | cons e es ih =>
    by_cases he : name = e.Name
    · rw [List.find?_cons_of_pos _ (by simp [he])]
      simp [treeLoop, he]
    · rw [List.find?_cons_of_neg _ (by simp [he])]
      simp only [treeLoop, if_neg he]
      exact ih

/-- C5: `Tree.Blob` is the linear search for the first entry with the
exact requested name — under duplicate names the first match in
on-disk record order wins — resolved through `readBlob`; no match is
an entry-not-found error, and a match whose object reads back with a
kind other than `"blob"` is a wrong-object-kind error.  `Tree.Tree`
behaves identically requiring kind `"tree"`. -/
theorem c5_first_match_navigation (r : Repository) (t : Tree)
    (name : List Nat) :
    Tree.Blob r t name =
        (match t.Entries.find? (fun e => name == e.Name) with
         | none => .err (.entryNotFound name)
         | some e => readBlob r e.id) ∧
      Tree.TreeOf r t name =
        (match t.Entries.find? (fun e => name == e.Name) with
         | none => .err (.entryNotFound name)
         | some e => readTree r e.id) ∧
      (∀ e h body, t.Entries.find? (fun e2 => name == e2.Name) = some e →
        readObjectRes r e.id = .ok (h, body) → h.kind ≠ blobW →
        Tree.Blob r t name = .err (.wrongKind blobW h.kind)) ∧
      (t.Entries.find? (fun e => name == e.Name) = none →
        Tree.Blob r t name = .err (.entryNotFound name)) := by
  have h1 := blobLoop_eq_find r name t.Entries
  have h2 := treeLoop_eq_find r name t.Entries
  refine ⟨h1, h2, ?_, ?_⟩
  · intro e h body hfind hro hkind
    show blobLoop r name t.Entries = _
    rw [h1, hfind]
    unfold readBlob
    simp [hro, hkind]
  · intro hfind
    show blobLoop r name t.Entries = _
    rw [h1, hfind]

/-- A store with a blob object (`"blob 5\x00world"`) under id `'b'*40`
and a tree object (`"tree 0\x00"`) under id `'c'*40`. -/
def navRepo : Repository :=
  ⟨fun id =>
    if id = List.replicate 40 98 then
      some ⟨true, blobW ++ [32, 53, 0, 119, 111, 114, 108, 100]⟩
    else if id = List.replicate 40 99 then
      some ⟨true, treeW ++ [32, 48, 0]⟩
    else none⟩

/-- A tree with duplicate names `"dup"` — the first resolving to the
blob object, the second to the tree object — and an entry `"oth"`
resolving to the tree object. -/
def navTree : Tree :=
  ⟨List.replicate 40 99,
    [⟨[100, 117, 112], 100644, List.replicate 40 98⟩,
      ⟨[100, 117, 112], 40000, List.replicate 40 99⟩,
      ⟨[111, 116, 104], 100644, List.replicate 40 99⟩]⟩

/-- C5 witness: on duplicate names the first entry wins (the blob is
returned), a missing name is entry-not-found, a name resolving to a
tree object is wrong-object-kind for `Tree.Blob`, and symmetrically
`Tree.Tree` on the duplicate name hits the blob first and reports
wrong-object-kind. -/
theorem c5_witness :
    Tree.Blob navRepo navTree [100, 117, 112] =
        .ok ⟨5, [119, 111, 114, 108, 100]⟩ ∧
      Tree.Blob navRepo navTree [109] = .err (.entryNotFound [109]) ∧
      Tree.Blob navRepo navTree [111, 116, 104] =
        .err (.wrongKind blobW treeW) ∧
      Tree.TreeOf navRepo navTree [100, 117, 112] =
        .err (.wrongKind treeW blobW) := by
  refine ⟨?_, ?_, ?_, ?_⟩
  · rw [(c5_first_match_navigation navRepo navTree [100, 117, 112]).1]
    decide
  · exact (c5_first_match_navigation navRepo navTree [109]).2.2.2 (by decide)
  · exact (c5_first_match_navigation navRepo navTree [111, 116, 104]).2.2.1
      ⟨[111, 116, 104], 100644, List.replicate 40 99⟩ ⟨treeW, 0⟩ []
      (by decide) (by decide) (by decide)
  · rw [(c5_first_match_navigation navRepo navTree [100, 117, 112]).2.1]
    decide

/-! ### Commit parser lemmas (C6) -/

theorem indexByte_eq_none {b : Nat} {l : List Nat} (h : b ∉ l) :
    indexByte b l = none := by
  induction l with
  | nil => rfl
  | cons c r ih =>
    have hc : c ≠ b := by
      intro he
      exact h (by simp [he])
    simp only [indexByte, if_neg hc]
    rw [ih (by intro hm; exact h (by simp [hm]))]
    rfl

/-- Whether a line is a `tree` field line: it has a space and the
bytes before the first space are exactly `"tree"`. -/
def isTreeLine (l : List Nat) : Bool :=
  match indexByte 32 l with
  | none => false
  | some i => l.take i == treeW

theorem stepCommit_no_space {t l : List Nat} (h : 32 ∉ l) :
    stepCommit t l = t := by
  unfold stepCommit
  rw [indexByte_eq_none h]

theorem stepCommit_not_treeline {t l : List Nat} (h : isTreeLine l = false) :
    stepCommit t l = t := by
  unfold stepCommit
  unfold isTreeLine at h
  cases hi : indexByte 32 l with
  | none => rfl
  | some i =>
    rw [hi] at h
    simp only [beq_eq_false_iff_ne, ne_eq] at h
    simp [h]

theorem foldl_stepCommit_no_treeline {ls : List (List Nat)} (t : List Nat)
    (h : ∀ l ∈ ls, isTreeLine l = false) : ls.foldl stepCommit t = t := by
  induction ls generalizing t with
  | nil => rfl
  | cons l ls ih =>
    rw [List.foldl_cons, stepCommit_not_treeline (h l (by simp))]
    exact ih t fun x hx => h x (by simp [hx])

theorem stepCommit_treeline (t v : List Nat) :
    stepCommit t (treeW ++ 32 :: v) = trimSpace v := by
  unfold stepCommit
  rw [indexByte_append_first v (by decide)]
  show (if (treeW ++ 32 :: v).take treeW.length = treeW then
    trimSpace ((treeW ++ 32 :: v).drop 5) else t) = trimSpace v
  have hd : (treeW ++ 32 :: v).drop 5 = v := by
    have h5 : treeW ++ 32 :: v = (treeW ++ [32]) ++ v := by simp
    rw [h5, show (5 : Nat) = (treeW ++ [32]).length from rfl, List.drop_left]
  rw [List.take_left, hd, if_pos rfl]

/-- C6: commit-body parsing retains only the `tree` field's value as
the root tree id — a `tree` line's trimmed value is the result
whenever no later line is a `tree` line, lines whose field is not
`tree` contribute nothing, and a line with no space separator is
silently skipped (removing it does not change the result; parsing
itself never errors: a commit object with any body parses to a
Commit).  Resolving an id whose header declares a kind other than
`"commit"` fails with a wrong-object-kind error. -/
theorem c6_commit_parsing (pre suf ls : List (List Nat)) (l v : List Nat)
    (rp : Repository) (sha : List Nat) (h : Header) (body : List Nat) :
    (32 ∉ l →
        commitTreeOfLines (pre ++ l :: suf) = commitTreeOfLines (pre ++ suf)) ∧
      ((∀ l2 ∈ suf, isTreeLine l2 = false) →
        commitTreeOfLines (pre ++ (treeW ++ 32 :: v) :: suf) = trimSpace v) ∧
      ((∀ l2 ∈ ls, isTreeLine l2 = false) → commitTreeOfLines ls = []) ∧
      (readObjectRes rp sha = .ok (h, body) → h.kind = commitW →
        readCommit rp sha = .ok ⟨sha, parseCommit body⟩) ∧
      (readObjectRes rp sha = .ok (h, body) → h.kind ≠ commitW →
        readCommit rp sha = .err (.wrongKind commitW h.kind)) := by
  refine ⟨?_, ?_, ?_, ?_, ?_⟩
  · intro hl
    unfold commitTreeOfLines
    rw [List.foldl_append, List.foldl_append, List.foldl_cons,
      stepCommit_no_space hl]
  · intro hsuf
    unfold commitTreeOfLines
    rw [List.foldl_append, List.foldl_cons, stepCommit_treeline,
      foldl_stepCommit_no_treeline _ hsuf]
  · intro hls
    exact foldl_stepCommit_no_treeline [] hls
  · intro hro hkind
    unfold readCommit
    simp [hro, hkind]
  · intro hro hkind
    unfold readCommit
    simp [hro, hkind]

/-- A store with a commit object whose decompressed stream is
`"commit 0\x00tree def\nhi"` under id `'d'*40`. -/
def commitRepo : Repository :=
  ⟨fun id =>
    if id = List.replicate 40 100 then
      some ⟨true, commitW ++ [32, 48, 0] ++
        (treeW ++ 32 :: [100, 101, 102] ++ [10, 104, 105])⟩
    else none⟩

/-- C6 witness: at the line level, a `parent`-style line and a
free-text line around a `tree` line leave exactly the tree value;
through the store, the commit object parses to a Commit holding
`"def"`, and reading the tree-kind object as a commit is a
wrong-object-kind error. -/
theorem c6_witness :
    commitTreeOfLines ([[112, 32, 120]] ++ (treeW ++ 32 :: [100, 101, 102]) ::
        [[104, 105]]) = [100, 101, 102] ∧
      readCommit commitRepo (List.replicate 40 100) =
        .ok ⟨List.replicate 40 100, [100, 101, 102]⟩ ∧
      readCommit navRepo (List.replicate 40 99) =
        .err (.wrongKind commitW treeW) := by
  refine ⟨?_, ?_, ?_⟩
  · exact (c6_commit_parsing [[112, 32, 120]] [[104, 105]] [] []
      [100, 101, 102] commitRepo [] ⟨[], 0⟩ []).2.1 (by decide)
  · have h4 := (c6_commit_parsing [] [] [] [] [] commitRepo
      (List.replicate 40 100) ⟨commitW, 0⟩
      (treeW ++ 32 :: [100, 101, 102] ++ [10, 104, 105])).2.2.2.1
      (by decide) rfl
    rw [h4]
    decide
  · exact (c6_commit_parsing [] [] [] [] [] navRepo
      (List.replicate 40 99) ⟨treeW, 0⟩ []).2.2.2.2 (by decide) (by decide)

/-! ### Store independence and resource tracking (C7, C9) -/

theorem runTree_stat_irrel (stat1 stat2 : List Nat → Bool) :
    ∀ n data, data.length ≤ n → ∀ acc,
      runTree stat1 acc data = runTree stat2 acc data := by
  intro n
  induction n with
  | zero =>
    intro data hlen acc
    have hnil : data = [] := List.length_eq_zero.mp (Nat.le_zero.mp hlen)
    subst hnil
    rw [runTree_nil, runTree_nil]
  | succ n ih =>
    intro data hlen acc
    by_cases hne : data.isEmpty
    · have hnil : data = [] := by
        cases data
        · rfl
        · simp at hne
      subst hnil
      rw [runTree_nil, runTree_nil]
    · by_cases hle : recordLengthOf data ≤ data.length
      · have hscan : scanTreeEntry data true =
            .emit (recordLengthOf data) (data.take (recordLengthOf data)) :=
          scanTreeEntry_emit_iff.mpr ⟨hle, rfl, rfl⟩
        by_cases h21 : (data.take (recordLengthOf data)).length < 21
        · rw [runTree_panic stat1 acc hscan h21,
            runTree_panic stat2 acc hscan h21]
        · cases hf : fscanfModeName ((data.take (recordLengthOf data)).take
              ((data.take (recordLengthOf data)).length - 21)) with
          | none =>
            rw [runTree_badEntry stat1 acc hscan (by omega) hf,
              runTree_badEntry stat2 acc hscan (by omega) hf]
          | some mn =>
            obtain ⟨mode, nm⟩ := mn
            rw [runTree_emit stat1 acc hscan (by omega) hf,
              runTree_emit stat2 acc hscan (by omega) hf]
            apply ih
            have h20 := recordLengthOf_ge data
            have hpos : 0 < data.length := by
              cases data
              · simp at hne
              · simp
            simp only [List.length_drop]
            omega
      · have hscan : scanTreeEntry data true = .scanErr data :=
          scanTreeEntry_scanErr_iff.mpr ⟨hne, hle⟩
        rw [runTree_scanErr stat1 acc hscan, runTree_scanErr stat2 acc hscan]

/-- C7: the entry list produced by tree parsing does not depend on the
per-entry on-disk presence probe — the probe's result is discarded, so
any two probe predicates (in particular "child object present" and
"child object absent, e.g. pack-file only") yield identical parses —
and an id missing from the store only fails at resolution time, with
an object-not-found error from `readObject` propagated unchanged by
`readBlob` and `readTree`. -/
theorem c7_entries_independent_of_store (stat1 stat2 : List Nat → Bool)
    (body : List Nat) (rp : Repository) (sha : List Nat) :
    parseTree stat1 body = parseTree stat2 body ∧
      (rp.objects sha = none →
        readObjectRes rp sha = .err .objectNotFound ∧
          readBlob rp sha = .err .objectNotFound ∧
          readTree rp sha = .err .objectNotFound) := by
  constructor
  · exact runTree_stat_irrel stat1 stat2 body.length body le_rfl []
  · intro hnone
    have hro : readObjectRes rp sha = .err .objectNotFound := by
      unfold readObjectRes readObject
      rw [hnone]
    refine ⟨hro, ?_, ?_⟩
    · unfold readBlob
      rw [hro]
    · unfold readTree
      rw [hro]

/-- The empty object store. -/
def emptyRepo : Repository := ⟨fun _ => none⟩

/-- C7 witness: the one-record body parses identically under the
all-present and all-absent probes, and resolving the (absent) child id
fails with object-not-found. -/
theorem c7_witness :
    parseTree (fun _ => true) (encodeRecs [recA]) =
        parseTree (fun _ => false) (encodeRecs [recA]) ∧
      readBlob emptyRepo (toHex (List.range 20)) = .err .objectNotFound := by
  constructor
  · exact (c7_entries_independent_of_store (fun _ => true) (fun _ => false)
      (encodeRecs [recA]) emptyRepo (toHex (List.range 20))).1
  · exact ((c7_entries_independent_of_store (fun _ => true) (fun _ => false)
      (encodeRecs [recA]) emptyRepo (toHex (List.range 20))).2 rfl).2.1

/-- The id `'e'*40` and three stores exercising `readObject`'s exit
paths: a file `zlib.NewReader` rejects, a file whose decompressed
stream (`"world"`) has no header NUL, and the empty store. -/
def sha9 : List Nat := List.replicate 40 101

/-- A store whose one object is not valid zlib data. -/
def corruptRepo : Repository :=
  ⟨fun id => if id = sha9 then some ⟨false, []⟩ else none⟩

/-- A store whose one object decompresses to `"world"` — no NUL, so
the header `Fscanf` fails. -/
def badHeaderRepo : Repository :=
  ⟨fun id =>
    if id = sha9 then some ⟨true, [119, 111, 114, 108, 100]⟩ else none⟩

/-- C9: evaluation of `readObject`'s file-handle disposition on each
exit path.  On the invalid-zlib and malformed-header failure paths the
opened handle is neither closed nor handed to the caller — it leaks,
contradicting the claim that every exit path releases it.  Only the
success path hands the handle to the caller (inside the returned
ReadCloser), and the open-failure path never acquires one. -/
theorem c9_handle_disposition :
    readObject corruptRepo sha9 = (.err .corruptObject, .leakedOpen) ∧
      readObject badHeaderRepo sha9 = (.err .malformedHeader, .leakedOpen) ∧
      readObject bananaRepo (List.replicate 40 97) =
        (.ok (⟨bananaW, 5⟩, [119, 111, 114, 108, 100]), .handedToCaller) ∧
      readObject emptyRepo sha9 = (.err .objectNotFound, .notOpened) := by
  decide

end Gitdav
